import Mathlib

/-!
Verification of the Pyborist scikit-learn bridge (suiji/Arborist,
ArboristBridgePy).  The development shallowly embeds the Python class
`PyboristModel` of `pyborist/skl.py` (constructor parameters, `fit`,
`_valid_default_params`, `_init_row_rank`, `_adjust_model_params`,
`predict`) in Lean.  Machine floats are modelled by `ℚ` (and `ℝ` where a
transcendental constant appears), numpy arrays by lists, and Python
exceptions by an `Except` error monad.  The external Cython engines
(`PyRowRank`, `PyTrain`, `PyPredict`) are out of scope: training is
represented by the request record handed to the engine, prediction by an
arbitrary engine function supplied as an argument.
-/

/-- Python exceptions raised by the bridge.  `valueError` carries the message
of the corresponding `raise ValueError(...)`; `attributeError` models access
to an instance attribute that was never assigned (Python `AttributeError`);
`keyError` models a failing dictionary lookup. -/
inductive PyError where
  | valueError (msg : String)
  | attributeError (attr : String)
  | keyError (key : String)
deriving DecidableEq, Repr

/-- Value of the `class_weight` constructor argument: `None`, the string
`'balanced'`, or a dict mapping class label to weight. -/
inductive ClassWeight where
  | noweight
  | balanced
  | dict (d : List (ℚ × ℚ))
deriving DecidableEq, Repr

/-- Constructor keyword arguments of `PyboristModel.__init__`
(`pyborist/skl.py`).  The reflective `setattr` loop stores each argument on
the instance unchanged, so the record simply holds them. -/
structure Params where
  n_estimators : ℕ := 10
  bootstrap : Bool := true
  class_weight : ClassWeight := .noweight
  min_info_ratio : ℚ := 1/100
  min_samples_split : ℤ := 2
  max_depth : ℕ := 0
  no_validate : Bool := true
  n_to_sample : ℕ := 0
  max_features : ℕ := 0
  pred_prob : ℚ := 0
  quantiles_arr : Option (List ℚ) := none
  q_bin : ℕ := 5000
  reg_mono : Option (List ℚ) := none
  tree_block : ℕ := 1
  pvt_block : ℕ := 8
  is_classifier : Bool := false

/-- A numpy 2-D array of doubles: `data` is the list of rows, `nrow`/`ncol`
its `shape`. -/
structure NpMat where
  nrow : ℕ
  ncol : ℕ
  data : List (List ℚ)
deriving DecidableEq, Repr

/-- Column `j` of the matrix, as read by the column-major flattening
`X.transpose().reshape(X.size)`. -/
def NpMat.col (X : NpMat) (j : ℕ) : List ℚ :=
  X.data.map (fun r => r.getD j 0)

/-- The list of columns of `X` (the transposed view handed to the presort
and training engines). -/
def NpMat.cols (X : NpMat) : List (List ℚ) :=
  (List.range X.ncol).map X.col

/-- Column-major flattening `X.transpose().reshape(X.size)`. -/
def NpMat.colMajor (X : NpMat) : List ℚ :=
  X.cols.flatten

/-- Row-major flattening `X.reshape(X.size)` used by `predict`. -/
def NpMat.rowMajor (X : NpMat) : List ℚ :=
  X.data.flatten

/-- Embedding of `np.unique(y)`: the sorted list of distinct values of `y`. -/
def npUnique (y : List ℚ) : List ℚ :=
  y.toFinset.sort (· ≤ ·)

/-- Embedding of the `return_inverse=True` output of `np.unique`: each
element replaced by its index in the sorted array of distinct values. -/
def npUniqueInverse (y : List ℚ) : List ℕ :=
  y.map (fun v => (npUnique y).indexOf v)

/-- Embedding of `np.bincount`: for a list of naturals, the list of
occurrence counts of `0, 1, ..., max`; empty input gives an empty count
array, as in numpy. -/
def npBincount (l : List ℕ) : List ℕ :=
  match l with
  | [] => []
  | _ => (List.range (l.foldr max 0 + 1)).map (fun c => l.count c)

/-- Value of `np.ceil(np.sqrt(n))` for a natural number `n` (exact for the
magnitudes arising here): the least `k` with `n ≤ k * k`. -/
def ceilSqrt (n : ℕ) : ℕ :=
  if Nat.sqrt n * Nat.sqrt n = n then Nat.sqrt n else Nat.sqrt n + 1

/-- Embedding of `np.round` (round half to even) on an exact real input. -/
noncomputable def npRound (x : ℝ) : ℤ :=
  if x - ⌊x⌋ = 1/2 then (if Even ⌊x⌋ then ⌊x⌋ else ⌊x⌋ + 1) else round x

/-- Normalization `arr / np.sum(arr)` of a weight vector. -/
def normalizeSum (l : List ℚ) : List ℚ :=
  l.map (fun x => x / l.sum)

/-- Per-class weights of the `'balanced'` option:
`n_samples / (n_classes * np.bincount(y))`.  A zero count makes numpy
produce `inf`, which the next source line
(`class_weight_arr[np.isinf(class_weight_arr)] = 0`) zeroes; the two steps
are combined here, so a zero count directly yields weight `0`.  (Weights
from the other two options are always finite, so the zeroing is a no-op
for them.) -/
def classWeightBalanced (nSamples nClasses : ℕ) (yEnc : List ℕ) : List ℚ :=
  (npBincount yEnc).map (fun c =>
    if c = 0 then 0 else (nSamples : ℚ) / ((nClasses : ℚ) * (c : ℚ)))

/-- Per-class weight array of `_adjust_model_params` (classification): the
three `class_weight` cases, followed by the normalization
`class_weight_arr / np.sum(class_weight_arr)`. -/
def classWeightPerClass (cw : ClassWeight) (nSamples nClasses : ℕ)
    (yEnc : List ℕ) (classes : List ℚ) : Except PyError (List ℚ) :=
  let rawE : Except PyError (List ℚ) :=
    match cw with
    | .noweight => .ok (List.replicate nClasses 1)
    | .balanced => .ok (classWeightBalanced nSamples nClasses yEnc)
    | .dict d =>
      if (d.map Prod.snd).any (fun v => decide (v < 0)) then
        .error (.valueError "Invalid class weighting.")
      else if (d.map Prod.snd).sum = 0 then
        .error (.valueError "Invalid class weighting.")
      else if d.length < nClasses then
        .error (.valueError "Some class weighting missed.")
      else
        classes.mapM (fun k =>
          match d.lookup k with
          | some w => .ok w
          | none => .error (.keyError "class label"))
  rawE.map normalizeSum

/-- Resolution of `n_to_sample` in `_adjust_model_params`: when left at the
neutral default `0`, it becomes `n_samples` under bootstrap and
`np.round((1 - np.exp(-1)) * n_samples)` otherwise. -/
noncomputable def resolveNToSample (nts : ℕ) (bootstrap : Bool)
    (nSamples : ℕ) : ℝ :=
  if nts = 0 then
    (if bootstrap then (nSamples : ℝ)
     else ((npRound ((1 - Real.exp (-1)) * (nSamples : ℝ))) : ℝ))
  else (nts : ℝ)

/-- Classification resolution of `max_features`: when the raw
`max_features` and `pred_prob` are both unset and `n_features < 16`, the
count becomes `np.floor(np.sqrt(n_features))` (i.e. `Nat.sqrt`). -/
def resolveMaxFeaturesClassif (nFeatures mf : ℕ) (pp : ℚ) : ℕ :=
  if mf = 0 ∧ pp = 0 ∧ nFeatures < 16 then Nat.sqrt nFeatures else mf

/-- Regression resolution of `max_features`: when raw `max_features` and
`pred_prob` are both unset and `n_features < 16`, the count becomes
`np.max([np.floor(n_features/3), 1])`. -/
def resolveMaxFeaturesRegr (nFeatures mf : ℕ) (pp : ℚ) : ℕ :=
  if mf = 0 ∧ pp = 0 ∧ nFeatures < 16 then max (nFeatures / 3) 1 else mf

/-- Classification resolution of the local `pred_prob` in
`_adjust_model_params`: the guard reads the raw attributes
`self.pred_prob == 0.0 and self.max_features == 0` (not the value resolved
by the `n_features < 16` rule). -/
def resolvePredProbClassif (nFeatures mf : ℕ) (pp : ℚ) : ℚ :=
  if pp = 0 ∧ mf = 0 then (ceilSqrt nFeatures : ℚ) / (nFeatures : ℚ) else pp

/-- Regression resolution of the local `pred_prob`: same raw-attribute
guard, with the constant `0.4`. -/
def resolvePredProbRegr (_nFeatures mf : ℕ) (pp : ℚ) : ℚ :=
  if pp = 0 ∧ mf = 0 then 2/5 else pp

/-- The `prob_arr` computation
`feature_weight * (n_features * mean_weight) / np.sum(feature_weight)`
where `mean_weight = 1.0 if pred_prob == 0.0 else pred_prob` is taken from
the resolved local `pred_prob`. -/
def probArrOf (featureW : List ℚ) (nFeatures : ℕ) (pp : ℚ) : List ℚ :=
  let meanW : ℚ := if pp = 0 then 1 else pp
  featureW.map (fun w => w * ((nFeatures : ℚ) * meanW) / featureW.sum)

/-- Resolution and validation of the `sample_weight` argument of `fit`. -/
def checkSampleWeight (sw : Option (List ℚ)) (nSamples : ℕ) :
    Except PyError (List ℚ) :=
  match sw with
  | none => .ok (List.replicate nSamples 1)
  | some s =>
    if s.length ≠ nSamples then
      .error (.valueError "Sample weight should equal to column number.")
    else if s.any (fun x => decide (x < 0)) then
      .error (.valueError "Sample weight should larger than zero.")
    else if s.sum = 0 then
      .error (.valueError "Sample weight could not be all zero.")
    else .ok s

/-- Resolution and validation of the `feature_weight` argument of `fit`. -/
def checkFeatureWeight (fw : Option (List ℚ)) (nFeatures : ℕ) :
    Except PyError (List ℚ) :=
  match fw with
  | none => .ok (List.replicate nFeatures 1)
  | some s =>
    if s.length ≠ nFeatures then
      .error (.valueError "Predictor weight should equal to column number.")
    else if s.any (fun x => decide (x < 0)) then
      .error (.valueError "Predictor weight should larger than zero.")
    else if s.sum = 0 then
      .error (.valueError "Predictor weight could not be all zero.")
    else .ok s

/-- Embedding of `PyboristModel._valid_default_params`: the checks on raw
hyperparameters that are independent of `X` and `y`, in source order. -/
def validDefaultParams (p : Params) : Except PyError Unit :=
  if p.min_samples_split ≤ 0 then
    .error (.valueError "Invalid min_samples_split.")
  else
    match p.quantiles_arr with
    | some qs =>
      if qs.any (fun q => decide (q < 0)) ∨ qs.any (fun q => decide (1 < q)) then
        .error (.valueError "Quantiles shoule be inside 0 and 1.")
      else if (qs.zip qs.tail).any (fun ab => decide (ab.2 - ab.1 < 0)) then
        .error (.valueError "Quantiles should be increasing.")
      else if p.pred_prob < 0 ∨ 1 < p.pred_prob then
        .error (.valueError "pred_prob should be inside [0.0, 1.0].")
      else if p.is_classifier then
        .error (.valueError "Quantiles are for regression only.")
      else .ok ()
    | none =>
      if p.pred_prob < 0 ∨ 1 < p.pred_prob then
        .error (.valueError "pred_prob should be inside [0.0, 1.0].")
      else .ok ()

/-! ### Presort engine

`PyboristModel._init_row_rank` and `PredTrainObj._initRowRank` call
`PyRowRank.PreSortNum`, a compiled Cython/C++ routine whose source is not
part of this repository snapshot.  The routine is therefore modelled from
the specification. -/

/-- Row indices of a column paired with their values, in original order. -/
def idxVal (col : List ℚ) : List (ℕ × ℚ) :=
  (List.range col.length).map (fun i => (i, col.getD i 0))

/-- Boolean comparison used to sort a column: ascending by value, ties
broken by original row index (a stable ascending sort). -/
def presortLE (a b : ℕ × ℚ) : Bool :=
  decide (a.2 < b.2 ∨ (a.2 = b.2 ∧ a.1 ≤ b.1))

/-- Modelled from the spec: the stably sorted (value, row) sequence of one
predictor column produced by the missing `PyRowRank.PreSortNum` kernel
("stably sort row indices by value ascending"). -/
def sortedPairs (col : List ℚ) : List (ℕ × ℚ) :=
  (idxVal col).mergeSort presortLE

/-- Dense 0-based rank of a value within a column: the number of distinct
column values strictly below it ("assign dense ranks such that equal values
get equal rank"). -/
def rankVal (col : List ℚ) (v : ℚ) : ℕ :=
  (col.toFinset.filter (fun w => w < v)).card

/-- Modelled from the spec: the `row` output of `PreSortNum` for one
column — the row index occupying each sorted position. -/
def rowOf (col : List ℚ) : List ℕ :=
  (sortedPairs col).map Prod.fst

/-- Modelled from the spec: the `rank` output of `PreSortNum` for one
column — the dense rank of the value at each sorted position. -/
def rankOf (col : List ℚ) : List ℕ :=
  (sortedPairs col).map (fun a => rankVal col a.2)

/-- Modelled from the spec: the `invNum` output of `PreSortNum` for one
column — for each sorted position, the number of earlier sorted positions
sharing the same value (the tie-run counter). -/
def invOf (col : List ℚ) : List ℕ :=
  (List.range (sortedPairs col).length).map (fun i =>
    ((sortedPairs col).take i).countP
      (fun b => decide (b.2 = ((sortedPairs col).getD i (0, 0)).2)))

/-- Modelled from the spec: the per-column presort
`(row, rank, invNum)` triple. -/
def presortCol (col : List ℚ) : List ℕ × List ℕ × List ℕ :=
  (rowOf col, rankOf col, invOf col)

/-- Modelled from the spec: `presort(column_major_values, n_features,
n_rows) -> RowRankTable`.  The block is accepted only when the flattened
length equals `n_features * n_rows` (otherwise `DimensionMismatch`,
modelled as `none`); each predictor's contiguous slice is then presorted
independently. -/
def presortNum (flat : List ℚ) (nFeatures nRows : ℕ) :
    Option (List (List ℕ × List ℕ × List ℕ)) :=
  if flat.length = nFeatures * nRows then
    some ((List.range nFeatures).map (fun p =>
      presortCol ((flat.drop (p * nRows)).take nRows)))
  else none

/-- Embedding of `PyboristModel._init_row_rank`: presort each column of the
(transposed) design matrix.  The source flattens `X.transpose()` and hands
the length-`n_features * n_rows` buffer to `PreSortNum`, which processes
one column's contiguous values at a time; the per-column decomposition is
applied directly here. -/
def initRowRank (X : NpMat) : List (List ℕ × List ℕ × List ℕ) :=
  X.cols.map presortCol

/-- The fully resolved `real_params` dictionary built by
`_init_row_rank` and `_adjust_model_params`. -/
structure RealParams where
  presort : List (List ℕ × List ℕ × List ℕ)
  nToSample : ℝ
  classWeight : Option (List ℚ)
  maxFeatures : ℕ
  probArr : List ℚ
  regMono : Option (List ℚ)

/-- The argument package handed to the external `PyTrain.Regression`
engine by `_train_regression`. -/
structure TrainReqR where
  data : List ℚ
  y : List ℚ
  nSamples : ℕ
  nFeatures : ℕ
  row : List (List ℕ)
  rank : List (List ℕ)
  invNum : List (List ℕ)
  nEstimators : ℕ
  nToSample : ℝ
  sampleWeight : List ℚ
  bootstrap : Bool
  treeBlock : ℕ
  minSamplesSplit : ℤ
  minInfoRatio : ℚ
  maxDepth : ℕ
  maxFeatures : ℕ
  probArr : List ℚ
  regMono : List ℚ

/-- The argument package handed to the external `PyTrain.Classification`
engine by `_train_classification`. -/
structure TrainReqC where
  data : List ℚ
  y : List ℕ
  nSamples : ℕ
  nFeatures : ℕ
  row : List (List ℕ)
  rank : List (List ℕ)
  invNum : List (List ℕ)
  nEstimators : ℕ
  nToSample : ℝ
  sampleWeight : List ℚ
  bootstrap : Bool
  treeBlock : ℕ
  minSamplesSplit : ℤ
  minInfoRatio : ℚ
  maxDepth : ℕ
  maxFeatures : ℕ
  probArr : List ℚ
  classWeight : List ℚ

/-- The opaque result of the external training engine (`self.estimators_`).
The engine is a black box, so the forest is represented by the request that
produced it; `predict` reads the forest/leaf tables out of this value. -/
inductive TrainedForest where
  | regr (r : TrainReqR)
  | clsf (c : TrainReqC)

/-- The state of a `PyboristModel` instance after a successful `fit` call
(`estimators_ = none` models an instance on which no successful training
call has assigned the `estimators_` attribute). -/
structure Model where
  params : Params
  n_samples_ : ℕ
  n_features_ : ℕ
  classes_ : List ℚ
  n_classes_ : ℕ
  real_params : RealParams
  estimators_ : Option TrainedForest

/-- Embedding of `PyboristModel._adjust_model_params`: resolves
`n_to_sample`, validates `min_samples_split` against `n_samples`, then per
task resolves the class-weight vector (classification) or `reg_mono`
(regression), validates and resolves `max_features`, resolves the local
`pred_prob` and builds `prob_arr`.  `u i` supplies the per-row
`np.random.uniform` draw used by the classification jitter. -/
noncomputable def adjustModelParams (p : Params) (nSamples nFeatures : ℕ)
    (yEnc : List ℕ) (nClasses : ℕ) (classes : List ℚ) (featureW : List ℚ)
    (u : ℕ → ℚ) (rr : List (List ℕ × List ℕ × List ℕ)) :
    Except PyError RealParams :=
  let nts : ℝ := resolveNToSample p.n_to_sample p.bootstrap nSamples
  if (nSamples : ℤ) < p.min_samples_split then
    .error (.valueError "Invalid min_samples_split.")
  else if p.is_classifier then
    match classWeightPerClass p.class_weight nSamples nClasses yEnc classes with
    | .error e => .error e
    | .ok cwNorm =>
      let cwRow : List ℚ := (List.range nSamples).map (fun i =>
        cwNorm.getD (yEnc.getD i 0) 0 +
          (u i - 1/2) * (1/2) / (nSamples : ℚ) / (nSamples : ℚ))
      if nFeatures < p.max_features then
        .error (.valueError "max_features should be no more than n_features.")
      else
        .ok { presort := rr
              nToSample := nts
              classWeight := some cwRow
              maxFeatures := resolveMaxFeaturesClassif nFeatures p.max_features p.pred_prob
              probArr := probArrOf featureW nFeatures
                (resolvePredProbClassif nFeatures p.max_features p.pred_prob)
              regMono := none }
  else
    let rm : List ℚ := match p.reg_mono with
      | none => List.replicate nFeatures 0
      | some v => v
    if nFeatures < p.max_features then
      .error (.valueError "max_features should be no more than n_features.")
    else
      .ok { presort := rr
            nToSample := nts
            classWeight := none
            maxFeatures := resolveMaxFeaturesRegr nFeatures p.max_features p.pred_prob
            probArr := probArrOf featureW nFeatures
              (resolvePredProbRegr nFeatures p.max_features p.pred_prob)
            regMono := some rm }

/-- Embedding of `PyboristModel.fit`.  The first dimension check, the label
encoding, the weight validations, `_valid_default_params`,
`_init_row_rank` and `_adjust_model_params` run in source order; a
successful call assigns `estimators_` with the trained forest (represented
by the request handed to the external `PyTrain` engine) and returns the
fitted instance. -/
noncomputable def fit (p : Params) (X : NpMat) (y : List ℚ)
    (sw fw : Option (List ℚ)) (u : ℕ → ℚ) : Except PyError Model :=
  if X.nrow ≠ y.length then
    .error (.valueError "X and y do not share the same first dimension.")
  else
    let classes : List ℚ := if p.is_classifier then npUnique y else []
    let yEnc : List ℕ := if p.is_classifier then npUniqueInverse y else []
    let nClasses : ℕ := classes.length
    let nSamples : ℕ := X.nrow
    let nFeatures : ℕ := X.ncol
    match checkSampleWeight sw nSamples with
    | .error e => .error e
    | .ok sampleW =>
      match checkFeatureWeight fw nFeatures with
      | .error e => .error e
      | .ok featureW =>
        match validDefaultParams p with
        | .error e => .error e
        | .ok _ =>
          let rr := initRowRank X
          match adjustModelParams p nSamples nFeatures yEnc nClasses classes
              featureW u rr with
          | .error e => .error e
          | .ok r =>
            let forest : TrainedForest :=
              if p.is_classifier then
                .clsf { data := X.colMajor, y := yEnc, nSamples := nSamples
                        nFeatures := nFeatures, row := r.presort.map (·.1)
                        rank := r.presort.map (·.2.1)
                        invNum := r.presort.map (·.2.2)
                        nEstimators := p.n_estimators, nToSample := r.nToSample
                        sampleWeight := sampleW, bootstrap := p.bootstrap
                        treeBlock := p.tree_block
                        minSamplesSplit := p.min_samples_split
                        minInfoRatio := p.min_info_ratio
                        maxDepth := p.max_depth, maxFeatures := r.maxFeatures
                        probArr := r.probArr
                        classWeight := r.classWeight.getD [] }
              else
                .regr { data := X.colMajor, y := y, nSamples := nSamples
                        nFeatures := nFeatures, row := r.presort.map (·.1)
                        rank := r.presort.map (·.2.1)
                        invNum := r.presort.map (·.2.2)
                        nEstimators := p.n_estimators, nToSample := r.nToSample
                        sampleWeight := sampleW, bootstrap := p.bootstrap
                        treeBlock := p.tree_block
                        minSamplesSplit := p.min_samples_split
                        minInfoRatio := p.min_info_ratio
                        maxDepth := p.max_depth, maxFeatures := r.maxFeatures
                        probArr := r.probArr
                        regMono := r.regMono.getD [] }
            .ok { params := p, n_samples_ := nSamples, n_features_ := nFeatures
                  classes_ := classes, n_classes_ := nClasses
                  real_params := r, estimators_ := some forest }

/-- Request handed to the external `PyPredict.Regression` engine by
`_predict_regression`: the row-major new data with its own shape, plus the
forest/leaf tables (represented by the opaque trained value). -/
structure PredReqR where
  data : List ℚ
  nrow : ℕ
  ncol : ℕ
  forest : TrainReqR

/-- Request handed to the external `PyPredict.Classification` engine by
`_predict_classification`, including the fitted class count. -/
structure PredReqC where
  data : List ℚ
  nrow : ℕ
  ncol : ℕ
  nClasses : ℕ
  forest : TrainReqC

/-- Embedding of `PyboristModel.predict`.  `engR`/`engC` are the external
prediction engines; the classification engine returns
`(y_pred, y_pred_votes, y_pred_proba)` and the public result is
`self.classes_[self.y_pred]`, the fit-time label looked up at each
predicted index.  An instance whose `estimators_` attribute was never
assigned fails with Python's `AttributeError` when `_predict_regression`
or `_predict_classification` reads `self.estimators_`. -/
def predict (m : Model) (X : NpMat) (engR : PredReqR → List ℚ)
    (engC : PredReqC → List ℕ × List (List ℕ) × List (List ℚ)) :
    Except PyError (List ℚ) :=
  if m.params.is_classifier then
    match m.estimators_ with
    | none => .error (.attributeError "estimators_")
    | some (.regr _) => .error (.keyError "yLevels")
    | some (.clsf t) =>
      let out := engC { data := X.rowMajor, nrow := X.nrow, ncol := X.ncol
                        nClasses := m.n_classes_, forest := t }
      .ok (out.1.map (fun i => m.classes_.getD i 0))
  else
    match m.estimators_ with
    | none => .error (.attributeError "estimators_")
    | some (.clsf _) => .error (.keyError "yRanked")
    | some (.regr t) =>
      .ok (engR { data := X.rowMajor, nrow := X.nrow, ncol := X.ncol
                  forest := t })

/-- Discriminator for `Except` results (used to state that a call does not
raise). -/
def exceptOk {ε α : Type _} : Except ε α → Bool
  | .ok _ => true
  | .error _ => false

/-- The observable fitted state of a model: everything `fit` computes,
apart from the verbatim copy of the raw constructor arguments that the
`setattr` loop keeps on the instance. -/
def modelState (m : Model) :
    ℕ × ℕ × List ℚ × ℕ × RealParams × Option TrainedForest :=
  (m.n_samples_, m.n_features_, m.classes_, m.n_classes_, m.real_params,
    m.estimators_)

/-- Total accessor for the sorted (row, value) pair at a sorted position
(defaulting to `(0, 0)` out of range). -/
def spAt (col : List ℚ) (i : ℕ) : ℕ × ℚ :=
  (sortedPairs col).getD i (0, 0)

unseal List.merge List.mergeSort

/-! ### Helper lemmas -/

lemma one_le_ceilSqrt {n : ℕ} (h : 1 ≤ n) : 1 ≤ ceilSqrt n := by
  unfold ceilSqrt
  split
  · exact Nat.sqrt_pos.mpr h
  · omega

lemma ceilSqrt_le_self {n : ℕ} (h : 1 ≤ n) : ceilSqrt n ≤ n := by
  unfold ceilSqrt
  split
  · exact Nat.sqrt_le_self n
  · next hne =>
    rcases Nat.lt_or_ge n 2 with h2 | h2
    · have hn1 : n = 1 := by omega
      subst hn1
      exact absurd (by decide) hne
    · have := Nat.sqrt_lt_self h2
      omega

/-- Projections of a successful `_adjust_model_params` run onto the
resolution functions it applies. -/
lemma adjustModelParams_ok {p : Params} {nS nF : ℕ} {yEnc : List ℕ} {nC : ℕ}
    {cls fw : List ℚ} {u : ℕ → ℚ} {rr : List (List ℕ × List ℕ × List ℕ)}
    {r : RealParams}
    (h : adjustModelParams p nS nF yEnc nC cls fw u rr = .ok r) :
    r.nToSample = resolveNToSample p.n_to_sample p.bootstrap nS ∧
    (p.is_classifier = true →
      r.maxFeatures = resolveMaxFeaturesClassif nF p.max_features p.pred_prob ∧
      r.probArr = probArrOf fw nF (resolvePredProbClassif nF p.max_features p.pred_prob) ∧
      r.regMono = none) ∧
    (p.is_classifier = false →
      r.maxFeatures = resolveMaxFeaturesRegr nF p.max_features p.pred_prob ∧
      r.probArr = probArrOf fw nF (resolvePredProbRegr nF p.max_features p.pred_prob) ∧
      r.regMono = some (match p.reg_mono with
        | none => List.replicate nF 0
        | some v => v)) := by
  simp only [adjustModelParams] at h
  split at h
  · exact absurd h (by simp)
  · split at h
    · next hc =>
      split at h
      · exact absurd h (by simp)
      · split at h
        · exact absurd h (by simp)
        · simp only [Except.ok.injEq] at h
          subst h
          refine ⟨rfl, fun _ => ⟨rfl, rfl, rfl⟩, fun hf => ?_⟩
          rw [hc] at hf
          cases hf
    · next hc =>
      split at h
      · exact absurd h (by simp)
      · simp only [Except.ok.injEq] at h
        subst h
        have hcf : p.is_classifier = false := by
          cases hcv : p.is_classifier
          · rfl
          · exact absurd hcv hc
        refine ⟨rfl, fun ht => ?_, fun _ => ⟨rfl, rfl, rfl⟩⟩
        rw [hcf] at ht
        cases ht

/-- Exact value of the regression sampling default at `n_rows = 100`:
`np.round((1 - np.exp(-1)) * 100) = 63`. -/
lemma npRound_hundred : npRound ((1 - Real.exp (-1)) * ((100 : ℕ) : ℝ)) = 63 := by
  have h1 : (0.36787944116 : ℝ) < Real.exp (-1) := Real.exp_neg_one_gt_d9
  have h2 : Real.exp (-1) < 0.3678794412 := Real.exp_neg_one_lt_d9
  set x : ℝ := (1 - Real.exp (-1)) * ((100 : ℕ) : ℝ) with hx
  have hlb : (63.2120558 : ℝ) < x := by
    rw [hx]; push_cast; nlinarith
  have hub : x < (63.2120559 : ℝ) := by
    rw [hx]; push_cast; nlinarith
  have hfl : ⌊x⌋ = 63 := by
    rw [Int.floor_eq_iff]
    constructor
    · push_cast; linarith
    · push_cast; linarith
  have hfrac : ¬ (x - (⌊x⌋ : ℝ) = 1/2) := by
    rw [hfl]
    intro heq
    push_cast at heq
    linarith
  have hround : round x = 63 := by
    rw [round_eq]
    rw [Int.floor_eq_iff]
    constructor
    · push_cast; linarith
    · push_cast; linarith
  unfold npRound
  rw [if_neg hfrac]
  exact hround

/-! ### Claim C1 -/

/-- C1, counterexample.  For a Classification fit with `n_features = 4` and
neither `max_features` nor `pred_prob` supplied, the `n_features < 16` rule
does derive a split-candidate count (2), yet the trial probability is also
resolved, to `ceil(sqrt(4))/4 = 1/2`, instead of staying at its unset value
`0`: the guard in the source reads the raw attributes, not the derived
count. -/
theorem claim1_counterexample :
    resolveMaxFeaturesClassif 4 0 0 = 2 ∧
    resolvePredProbClassif 4 0 0 = 1/2 ∧
    resolvePredProbClassif 4 0 0 ≠ 0 := by
  have h : resolvePredProbClassif 4 0 0 = 1/2 := by with_unfolding_all rfl
  refine ⟨by with_unfolding_all rfl, h, ?_⟩
  rw [h]
  norm_num

/-- C1, amended.  The default trial probability is applied whenever the
user supplied neither a split-candidate count (`max_features = 0`) nor a
trial probability (`pred_prob = 0`), regardless of whether the
`n_features < 16` rule derived a candidate count (which, under the same raw
inputs, it does for every `n_features < 16`): Classification resolves the
trial probability to `ceil(sqrt(n_features))/n_features` — a value in
`(0, 1]` — and Regression resolves it to `0.4`. -/
theorem claim1_amended (nf : ℕ) (h1 : 1 ≤ nf) :
    resolvePredProbClassif nf 0 0 = (ceilSqrt nf : ℚ) / (nf : ℚ) ∧
    0 < resolvePredProbClassif nf 0 0 ∧
    resolvePredProbClassif nf 0 0 ≤ 1 ∧
    (nf < 16 → resolveMaxFeaturesClassif nf 0 0 = Nat.sqrt nf) ∧
    resolvePredProbRegr nf 0 0 = 2/5 := by
  have hnf : (0 : ℚ) < (nf : ℚ) := by exact_mod_cast h1
  have he : resolvePredProbClassif nf 0 0 = (ceilSqrt nf : ℚ) / (nf : ℚ) := by
    simp [resolvePredProbClassif]
  refine ⟨he, ?_, ?_, ?_, by simp [resolvePredProbRegr]⟩
  · rw [he]
    apply div_pos _ hnf
    exact_mod_cast one_le_ceilSqrt h1
  · rw [he, div_le_one hnf]
    exact_mod_cast ceilSqrt_le_self h1
  · intro h16
    simp [resolveMaxFeaturesClassif, h16]

/-- C1, witness for the amended claim at `n_features = 4`. -/
theorem claim1_witness :
    0 < resolvePredProbClassif 4 0 0 ∧
    resolveMaxFeaturesClassif 4 0 0 = Nat.sqrt 4 :=
  ⟨(claim1_amended 4 (by decide)).2.1,
   (claim1_amended 4 (by decide)).2.2.2.1 (by decide)⟩

/-! ### Claim C6 -/

/-- C6.  For every successful `_adjust_model_params` run with
`n_features < 16` where the user supplied neither a split-candidate count
(`max_features = 0`) nor a trial probability (`pred_prob = 0`), the
resolved split-candidate count is `floor(sqrt(n_features))` for a
Classification task and `max(floor(n_features/3), 1)` for a Regression
task. -/
theorem claim6 (p : Params) (nS nF : ℕ) (yEnc : List ℕ) (nC : ℕ)
    (cls fw : List ℚ) (u : ℕ → ℚ) (rr : List (List ℕ × List ℕ × List ℕ))
    (r : RealParams)
    (hmf : p.max_features = 0) (hpp : p.pred_prob = 0) (hnf : nF < 16)
    (h : adjustModelParams p nS nF yEnc nC cls fw u rr = .ok r) :
    (p.is_classifier = true → r.maxFeatures = Nat.sqrt nF) ∧
    (p.is_classifier = false → r.maxFeatures = max (nF / 3) 1) := by
  obtain ⟨-, hcl, hrg⟩ := adjustModelParams_ok h
  constructor
  · intro hc
    rw [(hcl hc).1, resolveMaxFeaturesClassif, if_pos ⟨hmf, hpp, hnf⟩]
  · intro hc
    rw [(hrg hc).1, resolveMaxFeaturesRegr, if_pos ⟨hmf, hpp, hnf⟩]

/-- C6, witness: a Classification adjustment with 4 features and raw
`max_features = pred_prob = 0` resolves the candidate count to 2. -/
theorem claim6_witness :
    (adjustModelParams { is_classifier := true } 2 4 [0, 1] 2 [0, 1]
        [1, 1, 1, 1] (fun _ => 1/2) []).map RealParams.maxFeatures =
      .ok 2 := by
  obtain ⟨r, hr⟩ : ∃ r, adjustModelParams { is_classifier := true } 2 4 [0, 1] 2 [0, 1]
      [1, 1, 1, 1] (fun _ => 1/2) [] = .ok r := ⟨_, rfl⟩
  rw [hr]
  have := (claim6 _ 2 4 [0, 1] 2 [0, 1] [1, 1, 1, 1] (fun _ => 1/2) [] r
    rfl rfl (by decide) hr).1 rfl
  simp only [Except.map, this]
  with_unfolding_all rfl

/-! ### Claim C5 -/

/-- C5.  For every successful `_adjust_model_params` run with `n_to_sample`
left at its neutral default 0, the resolved rows-to-sample equals
`n_samples` when bootstrap is set and `np.round((1 - e⁻¹) * n_samples)`
when it is not; in particular for `n_samples = 100` it resolves to 100
with bootstrap and to 63 without. -/
theorem claim5 (p : Params) (nS nF : ℕ) (yEnc : List ℕ) (nC : ℕ)
    (cls fw : List ℚ) (u : ℕ → ℚ) (rr : List (List ℕ × List ℕ × List ℕ))
    (r : RealParams)
    (h0 : p.n_to_sample = 0)
    (h : adjustModelParams p nS nF yEnc nC cls fw u rr = .ok r) :
    r.nToSample = (if p.bootstrap then (nS : ℝ)
      else ((npRound ((1 - Real.exp (-1)) * (nS : ℝ))) : ℝ)) ∧
    (nS = 100 →
      (p.bootstrap = true → r.nToSample = 100) ∧
      (p.bootstrap = false → r.nToSample = 63)) := by
  have hn := (adjustModelParams_ok h).1
  rw [h0] at hn
  have hmain : r.nToSample = (if p.bootstrap then (nS : ℝ)
      else ((npRound ((1 - Real.exp (-1)) * (nS : ℝ))) : ℝ)) := by
    rw [hn, resolveNToSample, if_pos rfl]
  refine ⟨hmain, fun h100 => ⟨fun hb => ?_, fun hb => ?_⟩⟩
  · rw [hmain, if_pos hb, h100]
    norm_num
  · rw [hmain, if_neg (by rw [hb]; exact Bool.false_ne_true), h100]
    rw [npRound_hundred]
    norm_num

/-- C5, witness: with bootstrap off and 100 samples the resolved
`n_to_sample` is 63. -/
theorem claim5_witness :
    (adjustModelParams { bootstrap := false } 100 1 [] 0 [] [1]
        (fun _ => 0) []).map RealParams.nToSample = .ok (63 : ℝ) := by
  obtain ⟨r, hr⟩ : ∃ r, adjustModelParams { bootstrap := false } 100 1 [] 0 [] [1]
      (fun _ => 0) [] = .ok r := ⟨_, rfl⟩
  rw [hr]
  have := ((claim5 _ 100 1 [] 0 [] [1] (fun _ => 0) [] r rfl hr).2 rfl).2 rfl
  simp only [Except.map, this]

/-! ### Claim C7 -/

lemma map_div_sum_eq (s : ℚ) : ∀ (L : List ℚ), (L.map (fun x => x / s)).sum = L.sum / s := by
  intro L
  induction L with
  | nil => simp
  | cons a t ih => simp [ih, add_div]

set_option maxRecDepth 20000 in
/-- C7.  The `'balanced'` class-weight resolution: the per-class weights
are `n_rows / (n_classes * class_counts)` with infinite entries zeroed
(`classWeightBalanced`), then normalized to sum 1 (`normalizeSum`, proved
to sum to 1 whenever the un-normalized sum is non-zero); for class counts
`[80, 20]` at `n_rows = 100`, `n_classes = 2`, the normalized per-class
weights (before the per-row jitter) are `[0.2, 0.8]`. -/
theorem claim7 :
    (∀ (nS nC : ℕ) (yEnc : List ℕ),
      (classWeightBalanced nS nC yEnc).sum ≠ 0 →
      (normalizeSum (classWeightBalanced nS nC yEnc)).sum = 1) ∧
    npBincount (List.replicate 80 0 ++ List.replicate 20 1) = [80, 20] ∧
    classWeightBalanced 100 2 (List.replicate 80 0 ++ List.replicate 20 1) =
      [5/8, 5/2] ∧
    normalizeSum
      (classWeightBalanced 100 2 (List.replicate 80 0 ++ List.replicate 20 1)) =
      [1/5, 4/5] := by
  refine ⟨fun nS nC yEnc h => ?_, ?_, ?_, ?_⟩
  · unfold normalizeSum
    rw [map_div_sum_eq]
    exact div_self h
  · with_unfolding_all rfl
  · with_unfolding_all rfl
  · with_unfolding_all rfl

/-- C7, witness: the normalization hypothesis holds at the concrete
balanced instance, whose normalized weights therefore sum to 1. -/
theorem claim7_witness :
    (normalizeSum
      (classWeightBalanced 100 2 (List.replicate 80 0 ++ List.replicate 20 1))).sum = 1 :=
  claim7.1 100 2 (List.replicate 80 0 ++ List.replicate 20 1)
    (by rw [claim7.2.2.1]; norm_num)

/-! ### Claim C10 -/

/-- C10.  For every `X` and `y` whose first dimensions differ, `fit` raises
`ValueError('X and y do not share the same first dimension.')` immediately
— for every parameter record, including ones that would fail later
validation, and for every weight vector — so no validation, presort or
training is performed and the returned state carries no fitted model. -/
theorem claim10 (p : Params) (X : NpMat) (y : List ℚ)
    (sw fw : Option (List ℚ)) (u : ℕ → ℚ) (h : X.nrow ≠ y.length) :
    fit p X y sw fw u =
      .error (.valueError "X and y do not share the same first dimension.") := by
  unfold fit
  rw [if_pos h]

/-- C10, witness: a 2-row matrix with a 1-element response, under an
otherwise-invalid parameter record (`min_samples_split = 0`), still fails
with the dimension error. -/
theorem claim10_witness :
    fit { min_samples_split := 0 } ⟨2, 1, [[0], [0]]⟩ [1] none none (fun _ => 0) =
      .error (.valueError "X and y do not share the same first dimension.") :=
  claim10 _ _ _ _ _ _ (by decide)

/-- Projections of a successful `fit` call: the fitted instance records the
constructor parameters, the fit-time class ordering and count, the training
shape, and a trained forest matching the task. -/
lemma fit_ok {p : Params} {X : NpMat} {y : List ℚ} {sw fw : Option (List ℚ)}
    {u : ℕ → ℚ} {m : Model} (h : fit p X y sw fw u = .ok m) :
    m.params = p ∧
    m.classes_ = (if p.is_classifier then npUnique y else []) ∧
    m.n_classes_ = (if p.is_classifier then npUnique y else []).length ∧
    m.n_samples_ = X.nrow ∧
    m.n_features_ = X.ncol ∧
    (p.is_classifier = true → ∃ c, m.estimators_ = some (.clsf c)) ∧
    (p.is_classifier = false → ∃ rq, m.estimators_ = some (.regr rq)) := by
  simp only [fit] at h
  split at h
  · exact absurd h (by simp)
  · split at h
    · exact absurd h (by simp)
    · split at h
      · exact absurd h (by simp)
      · split at h
        · exact absurd h (by simp)
        · split at h
          · exact absurd h (by simp)
          · simp only [Except.ok.injEq] at h
            subst h
            refine ⟨rfl, rfl, rfl, rfl, rfl, fun hc => ?_, fun hc => ?_⟩
            · exact ⟨_, by rw [hc]; rfl⟩
            · exact ⟨_, by rw [hc]; rfl⟩

/-! ### Claim C2 -/

/-- On a Regression task, `_adjust_model_params` never reads
`class_weight`. -/
lemma adjustModelParams_cw (p : Params) (cw : ClassWeight)
    (hc : p.is_classifier = false) (nS nF : ℕ) (yEnc : List ℕ) (nC : ℕ)
    (cls fw : List ℚ) (u : ℕ → ℚ) (rr : List (List ℕ × List ℕ × List ℕ)) :
    adjustModelParams { p with class_weight := cw } nS nF yEnc nC cls fw u rr =
    adjustModelParams { p with class_weight := ClassWeight.noweight } nS nF
      yEnc nC cls fw u rr := by
  dsimp only [adjustModelParams]
  rw [hc]
  simp

/-- On a Classification task, `_adjust_model_params` never reads
`reg_mono`. -/
lemma adjustModelParams_rm (p : Params) (rm : Option (List ℚ))
    (hc : p.is_classifier = true) (nS nF : ℕ) (yEnc : List ℕ) (nC : ℕ)
    (cls fw : List ℚ) (u : ℕ → ℚ) (rr : List (List ℕ × List ℕ × List ℕ)) :
    adjustModelParams { p with reg_mono := rm } nS nF yEnc nC cls fw u rr =
    adjustModelParams { p with reg_mono := none } nS nF yEnc nC cls fw u rr := by
  dsimp only [adjustModelParams]
  rw [hc]
  simp

/-- C2, counterexample.  A Regression fit supplied with a class-weight
input (`class_weight = 'balanced'`) succeeds, and a Classification fit
supplied with a non-zero monotonicity vector (`reg_mono = [1, 1]`)
succeeds: neither input makes `fit` fail with any error. -/
theorem claim2_counterexample :
    exceptOk (fit { class_weight := .balanced } ⟨2, 2, [[1, 2], [3, 4]]⟩
      [0, 1] none none (fun _ => 0)) = true ∧
    exceptOk (fit { is_classifier := true, reg_mono := some [1, 1] }
      ⟨2, 2, [[1, 2], [3, 4]]⟩ [0, 1] none none (fun _ => 0)) = true := by
  constructor
  · with_unfolding_all rfl
  · with_unfolding_all rfl

/-- C2, amended.  A class-weight input on a Regression fit and a
monotonicity vector on a Classification fit are silently ignored rather
than rejected: the entire observable fitted state (and in particular
success versus failure) is identical to that of the same call with the
input left at `None`. -/
theorem claim2_amended (p : Params) (X : NpMat) (y : List ℚ)
    (sw fw : Option (List ℚ)) (u : ℕ → ℚ) (cw : ClassWeight)
    (rm : Option (List ℚ)) :
    (p.is_classifier = false →
      (fit { p with class_weight := cw } X y sw fw u).map modelState =
      (fit { p with class_weight := ClassWeight.noweight } X y sw fw u).map
        modelState) ∧
    (p.is_classifier = true →
      (fit { p with reg_mono := rm } X y sw fw u).map modelState =
      (fit { p with reg_mono := none } X y sw fw u).map modelState) := by
  constructor
  · intro hc
    have hv : validDefaultParams { p with class_weight := cw } =
        validDefaultParams { p with class_weight := ClassWeight.noweight } := rfl
    dsimp only [fit]
    rw [hv]
    simp only [adjustModelParams_cw p cw hc]
    split
    · rfl
    · split
      · rfl
      · split
        · rfl
        · split
          · rfl
          · split
            · rfl
            · rfl
  · intro hc
    have hv : validDefaultParams { p with reg_mono := rm } =
        validDefaultParams { p with reg_mono := none } := rfl
    dsimp only [fit]
    rw [hv]
    simp only [adjustModelParams_rm p rm hc]
    split
    · rfl
    · split
      · rfl
      · split
        · rfl
        · split
          · rfl
          · split
            · rfl
            · rfl

/-- C2, witness: the amended claim instantiated at a concrete Regression
fit carrying `class_weight = 'balanced'`. -/
theorem claim2_witness :
    (fit { ({} : Params) with class_weight := .balanced }
      ⟨2, 2, [[1, 2], [3, 4]]⟩ [0, 1] none none (fun _ => 0)).map modelState =
    (fit { ({} : Params) with class_weight := ClassWeight.noweight }
      ⟨2, 2, [[1, 2], [3, 4]]⟩ [0, 1] none none (fun _ => 0)).map modelState :=
  (claim2_amended {} ⟨2, 2, [[1, 2], [3, 4]]⟩ [0, 1] none none (fun _ => 0)
    .balanced none).1 rfl

/-! ### Claim C3 -/

/-- C3.  On every model instance whose `estimators_` attribute was never
assigned, every `predict` call fails (with the `AttributeError` on
`estimators_`, the code-level realization of the unfitted-model failure),
for both tasks, every input matrix and every engine; and every successful
`fit` call does assign `estimators_`, so an instance without it is exactly
one on which no successful training call has produced a trained forest. -/
theorem claim3 :
    (∀ (m : Model) (X : NpMat) (engR : PredReqR → List ℚ)
        (engC : PredReqC → List ℕ × List (List ℕ) × List (List ℚ)),
      m.estimators_ = none →
      predict m X engR engC = .error (.attributeError "estimators_")) ∧
    (∀ (p : Params) (X : NpMat) (y : List ℚ) (sw fw : Option (List ℚ))
        (u : ℕ → ℚ) (m : Model),
      fit p X y sw fw u = .ok m → m.estimators_ ≠ none) := by
  constructor
  · intro m X engR engC h
    unfold predict
    rw [h]
    split
    · rfl
    · rfl
  · intro p X y sw fw u m h hnone
    obtain ⟨-, -, -, -, -, hc, hr⟩ := fit_ok h
    cases hcv : p.is_classifier
    · obtain ⟨rq, hrq⟩ := hr hcv
      rw [hrq] at hnone
      cases hnone
    · obtain ⟨c, hcq⟩ := hc hcv
      rw [hcq] at hnone
      cases hnone

/-- C3, witness: a concrete never-fitted instance fails on `predict`. -/
theorem claim3_witness :
    predict
      { params := {}, n_samples_ := 0, n_features_ := 0, classes_ := [],
        n_classes_ := 0, real_params := ⟨[], 0, none, 0, [], none⟩,
        estimators_ := none }
      ⟨1, 1, [[0]]⟩ (fun _ => []) (fun _ => ([], [], [])) =
      .error (.attributeError "estimators_") :=
  claim3.1 _ _ _ _ rfl

/-! ### Claim C4 -/

/-- C4, counterexample.  A Regression model fitted on a 2-feature matrix,
asked to predict on a 1-column matrix, does not fail: `predict` performs no
column-count comparison, and the external prediction engine is invoked with
the new matrix's own column count (an engine that echoes the `ncol` it
received returns `[1]`, not the fitted count 2). -/
theorem claim4_counterexample :
    ((fit {} ⟨2, 2, [[1, 2], [3, 4]]⟩ [0, 1] none none (fun _ => 0)).bind
      (fun m => predict m ⟨1, 1, [[5]]⟩ (fun rq => [(rq.ncol : ℚ)])
        (fun _ => ([], [], [])))) = .ok [1] ∧
    (fit {} ⟨2, 2, [[1, 2], [3, 4]]⟩ [0, 1] none none (fun _ => 0)).map
      Model.n_features_ = .ok 2 := by
  constructor
  · with_unfolding_all rfl
  · with_unfolding_all rfl

/-- C4, amended.  `predict` on a fitted model never raises a
feature-count error: for every fitted model and every new-data matrix,
including each one whose column count differs from the fitted
`n_features_`, the call succeeds, and on a Regression model the external
engine receives the request built from the new matrix's own shape. -/
theorem claim4_amended (p : Params) (X : NpMat) (y : List ℚ)
    (sw fw : Option (List ℚ)) (u : ℕ → ℚ) (m : Model)
    (hfit : fit p X y sw fw u = .ok m)
    (X' : NpMat) (engR : PredReqR → List ℚ)
    (engC : PredReqC → List ℕ × List (List ℕ) × List (List ℚ))
    (hne : X'.ncol ≠ m.n_features_) :
    exceptOk (predict m X' engR engC) = true ∧
    (∀ rq, m.estimators_ = some (.regr rq) → p.is_classifier = false →
      predict m X' engR engC =
        .ok (engR { data := X'.rowMajor, nrow := X'.nrow, ncol := X'.ncol,
                    forest := rq })) := by
  obtain ⟨hp, -, -, -, -, hc, hr⟩ := fit_ok hfit
  constructor
  · unfold predict
    rw [hp]
    cases hcv : p.is_classifier
    · obtain ⟨rq, hrq⟩ := hr hcv
      rw [hrq]
      rfl
    · obtain ⟨c, hcq⟩ := hc hcv
      rw [hcq]
      rfl
  · intro rq hrq hcv
    unfold predict
    rw [hp, hcv, hrq]
    rfl

/-- C4, witness: the amended claim at the concrete fitted model and the
mismatched 1-column matrix. -/
theorem claim4_witness :
    (fit {} ⟨2, 2, [[1, 2], [3, 4]]⟩ [0, 1] none none (fun _ => 0)).map
      (fun m => exceptOk (predict m ⟨1, 1, [[5]]⟩ (fun _ => [])
        (fun _ => ([], [], [])))) = .ok true := by
  obtain ⟨m, hm⟩ : ∃ m,
      fit {} ⟨2, 2, [[1, 2], [3, 4]]⟩ [0, 1] none none (fun _ => 0) = .ok m :=
    ⟨_, by with_unfolding_all rfl⟩
  rw [hm]
  have hnf : m.n_features_ = 2 := (fit_ok hm).2.2.2.2.1
  have hok := (claim4_amended _ _ _ _ _ _ _ hm ⟨1, 1, [[5]]⟩ (fun _ => [])
    (fun _ => ([], [], [])) (by rw [hnf]; decide)).1
  simp only [Except.map, hok]

/-! ### Claim C8 -/

/-- C8.  For every Classification fit, the class ordering `classes_` is
computed at fit time as the sorted, de-duplicated set of training labels
(strictly sorted, containing exactly the training labels), the class count
`n_classes_` equals the number of distinct labels, and every subsequent
`predict` call returns the external engine's per-row argmax class indices
mapped through that stored fit-time ordering — `predict` receives no
training labels and recomputes nothing. -/
theorem claim8 (p : Params) (X : NpMat) (y : List ℚ) (sw fw : Option (List ℚ))
    (u : ℕ → ℚ) (m : Model)
    (hc : p.is_classifier = true) (h : fit p X y sw fw u = .ok m) :
    List.Sorted (· < ·) m.classes_ ∧
    (∀ v, v ∈ m.classes_ ↔ v ∈ y) ∧
    m.n_classes_ = y.toFinset.card ∧
    (∀ (X' : NpMat) (engR : PredReqR → List ℚ)
        (engC : PredReqC → List ℕ × List (List ℕ) × List (List ℚ))
        (ypred : List ℕ) (votes : List (List ℕ)) (proba : List (List ℚ)),
      (∀ q, engC q = (ypred, votes, proba)) →
      predict m X' engR engC =
        .ok (ypred.map (fun i => m.classes_.getD i 0))) := by
  obtain ⟨hp, hcls, hncls, -, -, hcf, -⟩ := fit_ok h
  simp only [hc, if_true] at hcls hncls
  refine ⟨?_, ?_, ?_, ?_⟩
  · rw [hcls]
    exact Finset.sort_sorted_lt _
  · intro v
    rw [hcls]
    unfold npUnique
    rw [Finset.mem_sort, List.mem_toFinset]
  · rw [hncls]
    unfold npUnique
    exact Finset.length_sort _
  · intro X' engR engC ypred votes proba heng
    obtain ⟨c, hcq⟩ := hcf hc
    unfold predict
    rw [hp, hc, hcq]
    simp [heng]

/-- C8, witness: fitting on labels `[3, 1, 3]` records 2 classes. -/
theorem claim8_witness :
    (fit { is_classifier := true } ⟨3, 1, [[1], [2], [1]]⟩ [3, 1, 3] none none
      (fun _ => 0)).map Model.n_classes_ = .ok 2 := by
  obtain ⟨m, hm⟩ : ∃ m, fit { is_classifier := true } ⟨3, 1, [[1], [2], [1]]⟩
      [3, 1, 3] none none (fun _ => 0) = .ok m := ⟨_, by with_unfolding_all rfl⟩
  rw [hm]
  have hn := (claim8 _ _ _ _ _ _ _ rfl hm).2.2.1
  simp only [Except.map, hn]
  with_unfolding_all rfl

/-! ### Presort invariants (claim C9) -/

lemma presortLE_trans (a b c : ℕ × ℚ) :
    presortLE a b → presortLE b c → presortLE a c := by
  unfold presortLE
  simp only [decide_eq_true_eq]
  rintro (hab | ⟨hab, hab'⟩) (hbc | ⟨hbc, hbc'⟩)
  · exact Or.inl (lt_trans hab hbc)
  · exact Or.inl (hbc ▸ hab)
  · exact Or.inl (hab ▸ hbc)
  · exact Or.inr ⟨hab.trans hbc, le_trans hab' hbc'⟩

lemma presortLE_total (a b : ℕ × ℚ) : presortLE a b || presortLE b a := by
  unfold presortLE
  rcases lt_trichotomy a.2 b.2 with h | h | h
  · simp [h]
  · rcases Nat.le_total a.1 b.1 with h1 | h1 <;> simp [h, h1]
  · simp [h]

lemma sortedPairs_length (col : List ℚ) :
    (sortedPairs col).length = col.length := by
  simp [sortedPairs, idxVal]

lemma sortedPairs_perm (col : List ℚ) : (sortedPairs col).Perm (idxVal col) :=
  List.mergeSort_perm _ _

lemma sortedPairs_pairwise (col : List ℚ) :
    (sortedPairs col).Pairwise (fun a b => presortLE a b = true) :=
  List.sorted_mergeSort presortLE_trans presortLE_total _

lemma sortedPairs_mem {col : List ℚ} {a : ℕ × ℚ} (ha : a ∈ sortedPairs col) :
    a.1 < col.length ∧ a.2 = col.getD a.1 0 := by
  have : a ∈ idxVal col := (sortedPairs_perm col).mem_iff.mp ha
  simp only [idxVal, List.mem_map, List.mem_range] at this
  obtain ⟨i, hi, rfl⟩ := this
  exact ⟨hi, rfl⟩

lemma spAt_eq {col : List ℚ} {n : ℕ} (hs : n < (sortedPairs col).length) :
    spAt col n = (sortedPairs col)[n] :=
  List.getD_eq_getElem _ _ hs

lemma sortedPairs_val_le (col : List ℚ) {i j : ℕ} (hij : i ≤ j)
    (hj : j < (sortedPairs col).length) :
    (spAt col i).2 ≤ (spAt col j).2 := by
  have hi : i < (sortedPairs col).length := lt_of_le_of_lt hij hj
  rw [spAt_eq hi, spAt_eq hj]
  rcases Nat.eq_or_lt_of_le hij with rfl | hlt
  · exact le_refl _
  · have := (List.pairwise_iff_getElem.mp (sortedPairs_pairwise col)) i j
      hi hj hlt
    unfold presortLE at this
    simp only [decide_eq_true_eq] at this
    rcases this with h | ⟨h, -⟩
    · exact le_of_lt h
    · exact le_of_eq h

lemma rankVal_le {col : List ℚ} {v w : ℚ} (hvw : v ≤ w) :
    rankVal col v ≤ rankVal col w := by
  apply Finset.card_le_card
  intro x hx
  simp only [Finset.mem_filter] at hx ⊢
  exact ⟨hx.1, lt_of_lt_of_le hx.2 hvw⟩

lemma rankVal_lt {col : List ℚ} {v w : ℚ} (hv : v ∈ col) (hvw : v < w) :
    rankVal col v < rankVal col w := by
  apply Finset.card_lt_card
  constructor
  · intro x hx
    simp only [Finset.mem_filter] at hx ⊢
    exact ⟨hx.1, lt_trans hx.2 hvw⟩
  · intro hsub
    have hvmem : v ∈ col.toFinset.filter (fun w' => w' < w) := by
      simp only [Finset.mem_filter, List.mem_toFinset]
      exact ⟨hv, hvw⟩
    have := hsub hvmem
    simp only [Finset.mem_filter] at this
    exact lt_irrefl v this.2

lemma rankVal_inj {col : List ℚ} {v w : ℚ} (hv : v ∈ col) (hw : w ∈ col) :
    rankVal col v = rankVal col w ↔ v = w := by
  constructor
  · intro h
    by_contra hne
    rcases lt_or_gt_of_ne hne with hlt | hgt
    · exact absurd h (Nat.ne_of_lt (rankVal_lt hv hlt))
    · exact absurd h.symm (Nat.ne_of_lt (rankVal_lt hw hgt))
  · intro h
    rw [h]

lemma rowOf_getD {col : List ℚ} {i : ℕ} (hi : i < col.length) :
    (rowOf col).getD i 0 = (spAt col i).1 := by
  have hs : i < (sortedPairs col).length := (sortedPairs_length col).symm ▸ hi
  have hlen : i < (rowOf col).length := by
    simp [rowOf, sortedPairs_length, hi]
  rw [List.getD_eq_getElem _ _ hlen, spAt_eq hs]
  simp [rowOf]

lemma rankOf_getD {col : List ℚ} {i : ℕ} (hi : i < col.length) :
    (rankOf col).getD i 0 = rankVal col (spAt col i).2 := by
  have hs : i < (sortedPairs col).length := (sortedPairs_length col).symm ▸ hi
  have hlen : i < (rankOf col).length := by
    simp [rankOf, sortedPairs_length, hi]
  rw [List.getD_eq_getElem _ _ hlen, spAt_eq hs]
  simp [rankOf]

lemma invOf_getD {col : List ℚ} {i : ℕ} (hi : i < col.length) :
    (invOf col).getD i 0 =
      ((sortedPairs col).take i).countP
        (fun b => decide (b.2 = (spAt col i).2)) := by
  have hlen : i < (invOf col).length := by
    simp [invOf, sortedPairs_length, hi]
  rw [List.getD_eq_getElem _ _ hlen]
  simp only [invOf, List.getElem_map, List.getElem_range]
  rfl

lemma val_of_row {col : List ℚ} {i : ℕ} (hi : i < col.length) :
    col.getD (spAt col i).1 0 = (spAt col i).2 := by
  have hs : i < (sortedPairs col).length := (sortedPairs_length col).symm ▸ hi
  rw [spAt_eq hs]
  exact (sortedPairs_mem (List.getElem_mem hs)).2.symm

lemma val_mem_col {col : List ℚ} {i : ℕ} (hi : i < col.length) :
    (spAt col i).2 ∈ col := by
  have hs : i < (sortedPairs col).length := (sortedPairs_length col).symm ▸ hi
  rw [spAt_eq hs]
  obtain ⟨h1, h2⟩ := sortedPairs_mem (List.getElem_mem hs)
  rw [h2, List.getD_eq_getElem _ _ h1]
  exact List.getElem_mem h1

lemma rowOf_perm (col : List ℚ) : (rowOf col).Perm (List.range col.length) := by
  have h1 : (rowOf col).Perm ((idxVal col).map Prod.fst) :=
    (sortedPairs_perm col).map _
  have h2 : (idxVal col).map Prod.fst = List.range col.length := by
    unfold idxVal
    rw [List.map_map]
    have : (Prod.fst ∘ fun i : ℕ => (i, col.getD i 0)) = id := by
      funext i
      rfl
    rw [this, List.map_id]
  rw [h2] at h1
  exact h1

lemma rankOf_mono (col : List ℚ) {i j : ℕ} (hij : i ≤ j) (hj : j < col.length) :
    (rankOf col).getD i 0 ≤ (rankOf col).getD j 0 := by
  have hi : i < col.length := lt_of_le_of_lt hij hj
  rw [rankOf_getD hi, rankOf_getD hj]
  exact rankVal_le (sortedPairs_val_le col hij ((sortedPairs_length col).symm ▸ hj))

lemma rankOf_iff (col : List ℚ) {i j : ℕ} (hi : i < col.length)
    (hj : j < col.length) :
    (rankOf col).getD i 0 = (rankOf col).getD j 0 ↔
      col.getD ((rowOf col).getD i 0) 0 = col.getD ((rowOf col).getD j 0) 0 := by
  rw [rankOf_getD hi, rankOf_getD hj, rowOf_getD hi, rowOf_getD hj,
    val_of_row hi, val_of_row hj]
  exact rankVal_inj (val_mem_col hi) (val_mem_col hj)

lemma invOf_zero (col : List ℚ) (h : 0 < col.length) :
    (invOf col).getD 0 0 = 0 := by
  rw [invOf_getD h]
  simp

lemma invOf_rec (col : List ℚ) {i : ℕ} (h0 : 0 < i) (hi : i < col.length) :
    (invOf col).getD i 0 =
      if (rankOf col).getD i 0 = (rankOf col).getD (i - 1) 0
      then (invOf col).getD (i - 1) 0 + 1 else 0 := by
  obtain ⟨k, rfl⟩ : ∃ k, i = k + 1 := ⟨i - 1, (Nat.succ_pred_eq_of_pos h0).symm⟩
  have hk : k < col.length := Nat.lt_of_succ_lt hi
  have hks : k < (sortedPairs col).length := (sortedPairs_length col).symm ▸ hk
  have hk1s : k + 1 < (sortedPairs col).length := (sortedPairs_length col).symm ▸ hi
  have hvle : (spAt col k).2 ≤ (spAt col (k+1)).2 :=
    sortedPairs_val_le col (Nat.le_succ k) hk1s
  simp only [Nat.add_sub_cancel]
  rw [invOf_getD hi, invOf_getD hk]
  rw [List.take_succ, List.getElem?_eq_getElem hks]
  simp only [Option.toList_some]
  rw [show (sortedPairs col)[k] = spAt col k from (spAt_eq hks).symm]
  rw [List.countP_append]
  by_cases hval : (spAt col k).2 = (spAt col (k+1)).2
  · have hvv : col.getD ((rowOf col).getD (k+1) 0) 0 =
        col.getD ((rowOf col).getD k 0) 0 := by
      rw [rowOf_getD hi, rowOf_getD hk, val_of_row hi, val_of_row hk]
      exact hval.symm
    rw [if_pos ((rankOf_iff col hi hk).mpr hvv)]
    have h1 : List.countP
        (fun b => decide (b.2 = (spAt col (k+1)).2))
        [spAt col k] = 1 := by
      simp [List.countP_cons, hval]
    rw [h1, ← hval]
  · have hvvne : ¬ col.getD ((rowOf col).getD (k+1) 0) 0 =
        col.getD ((rowOf col).getD k 0) 0 := by
      rw [rowOf_getD hi, rowOf_getD hk, val_of_row hi, val_of_row hk]
      exact fun heq => hval heq.symm
    rw [if_neg (fun hr => hvvne ((rankOf_iff col hi hk).mp hr))]
    have hvlt : (spAt col k).2 < (spAt col (k+1)).2 :=
      lt_of_le_of_ne hvle hval
    have hz1 : List.countP
        (fun b => decide (b.2 = (spAt col (k+1)).2))
        [spAt col k] = 0 := by
      simp [List.countP_cons, hval]
    have hz2 : List.countP
        (fun b => decide (b.2 = (spAt col (k+1)).2))
        ((sortedPairs col).take k) = 0 := by
      rw [List.countP_eq_zero]
      intro b hb
      obtain ⟨n, hn, hbn⟩ := List.mem_iff_getElem.mp hb
      have hnk : n < k := by
        rw [List.length_take] at hn
        omega
      have hns : n < (sortedPairs col).length := lt_trans hnk hks
      have hbv : b.2 ≤ (spAt col k).2 := by
        rw [← hbn, List.getElem_take, ← spAt_eq hns]
        exact sortedPairs_val_le col (le_of_lt hnk) hks
      simp only [decide_eq_true_eq]
      intro heq
      rw [heq] at hbv
      exact absurd hvlt (not_lt_of_le hbv)
    rw [hz1, hz2]

/-- C9.  For every predictor block accepted by the presort step (flattened
length `n_features * n_rows`) and every predictor column `p < n_features`
of the resulting row-rank table: `row` is a permutation of `0..n_rows-1`;
`rank` is non-decreasing over sorted position, with equal ranks exactly at
equal underlying column values; and `invNum` starts at 0 and resets to 0
whenever the rank changes from position `i-1` to `i`, otherwise
incrementing by 1. -/
theorem claim9 (flat : List ℚ) (nf nr : ℕ)
    (tbl : List (List ℕ × List ℕ × List ℕ))
    (h : presortNum flat nf nr = some tbl) (p : ℕ) (hp : p < nf)
    (col : List ℚ) (hcol : col = (flat.drop (p * nr)).take nr)
    (row rank inv : List ℕ)
    (hrow : tbl.getD p ([], [], []) = (row, rank, inv)) :
    row.Perm (List.range nr) ∧
    (∀ i j, i ≤ j → j < nr → rank.getD i 0 ≤ rank.getD j 0) ∧
    (∀ i j, i < nr → j < nr →
      (rank.getD i 0 = rank.getD j 0 ↔
        col.getD (row.getD i 0) 0 = col.getD (row.getD j 0) 0)) ∧
    (0 < nr → inv.getD 0 0 = 0) ∧
    (∀ i, 0 < i → i < nr →
      inv.getD i 0 = if rank.getD i 0 = rank.getD (i - 1) 0
        then inv.getD (i - 1) 0 + 1 else 0) := by
  unfold presortNum at h
  split at h
  case isTrue hflat =>
    simp only [Option.some.injEq] at h
    subst h
    have hlt : p < ((List.range nf).map
        (fun q => presortCol ((flat.drop (q * nr)).take nr))).length := by
      simp [hp]
    rw [List.getD_eq_getElem _ _ hlt] at hrow
    simp only [List.getElem_map, List.getElem_range] at hrow
    rw [← hcol] at hrow
    unfold presortCol at hrow
    simp only [Prod.mk.injEq] at hrow
    obtain ⟨hr1, hr2, hr3⟩ := hrow
    have hlen : col.length = nr := by
      rw [hcol, List.length_take, List.length_drop, hflat]
      have hmul : p * nr + nr ≤ nf * nr := by
        have := Nat.mul_le_mul_right nr (Nat.succ_le_of_lt hp)
        rw [Nat.succ_mul] at this
        exact this
      omega
    subst hr1 hr2 hr3
    refine ⟨?_, ?_, ?_, ?_, ?_⟩
    · rw [← hlen]
      exact rowOf_perm col
    · intro i j hij hj
      exact rankOf_mono col hij (hlen ▸ hj)
    · intro i j hi hj
      exact rankOf_iff col (hlen ▸ hi) (hlen ▸ hj)
    · intro hnr
      exact invOf_zero col (hlen ▸ hnr)
    · intro i h0 hi
      exact invOf_rec col h0 (hlen ▸ hi)
  case isFalse => exact absurd h (by simp)

/-- C9, witness: on the accepted block `[[3,1,2,2],[5,5,5,5]]` (two
predictors, four rows) the all-ties second column has its tie counter
increment at the last sorted position. -/
theorem claim9_witness :
    (presortCol [(5:ℚ), 5, 5, 5]).2.2.getD 3 0 =
      (presortCol [(5:ℚ), 5, 5, 5]).2.2.getD 2 0 + 1 := by
  have htbl : presortNum [(3:ℚ), 1, 2, 2, 5, 5, 5, 5] 2 4 =
      some [presortCol [(3:ℚ), 1, 2, 2], presortCol [(5:ℚ), 5, 5, 5]] := by
    with_unfolding_all rfl
  have H := claim9 _ 2 4 _ htbl 1 (by decide) [(5:ℚ), 5, 5, 5]
    (by with_unfolding_all rfl)
    (presortCol [(5:ℚ), 5, 5, 5]).1 (presortCol [(5:ℚ), 5, 5, 5]).2.1
    (presortCol [(5:ℚ), 5, 5, 5]).2.2 rfl
  have h5 := H.2.2.2.2 3 (by decide) (by decide)
  rw [if_pos (by with_unfolding_all rfl)] at h5
  exact h5
